import Mathlib

set_option maxHeartbeats 2000000

/-!
Shallow embedding of `backend/devices/usb/communication.go` from the
bitbox-wallet-app repository: the USB HID framing layer (`sendFrame`,
`readFrame`), the bootloader transport (`SendBootloader`), the JSON
redaction helper (`hideValues`), the device error mapping
(`maybeDBBErr`) and the JSON/logging layer of `SendPlain` and
`SendEncrypt`.  Bytes are modeled as `Nat` (values 0..255 in all
reachable states), byte strings as `List Nat`.
-/

/-- USB channel identifier constant `hwwCID` of communication.go. -/
def hwwCID : Nat := 0xff000000

/-- Initial frame type identifier `u2fHIDTypeInit`. -/
def u2fHIDTypeInit : Nat := 0x80

/-- First vendor defined command `u2fHIDVendorFirst`. -/
def u2fHIDVendorFirst : Nat := u2fHIDTypeInit ||| 0x40

/-- Command byte `hwwCMD` carried by every init frame. -/
def hwwCMD : Nat := u2fHIDVendorFirst ||| 0x01

/-- The 7-byte init frame header written by `sendFrame`: big-endian uint32
`hwwCID` (bytes ff 00 00 00), uint8 `hwwCMD`, big-endian uint16 of
`dataLen AND 0xFFFF`. -/
def initHeader (dataLen : Nat) : List Nat :=
  [0xff, 0x00, 0x00, 0x00, hwwCMD, dataLen % 65536 / 256, dataLen % 256]

/-- The 5-byte continuation frame header written by `sendFrame`: big-endian
uint32 `hwwCID`, then the sequence number truncated to uint8. -/
def contHeader (seq : Nat) : List Nat :=
  [0xff, 0x00, 0x00, 0x00, seq % 256]

/-- The `send` closure of `sendFrame`: one frame is the header, then the next
chunk of the message (`readFrom.Next(writeSize - header length)` bytes), then
`0xee` filler bytes until the frame length reaches `writeSize`. -/
def padFrame (writeSize : Nat) (header chunk : List Nat) : List Nat :=
  header ++ chunk ++ List.replicate (writeSize - (header.length + chunk.length)) 0xee

/-- The continuation loop of `sendFrame`: while the read buffer is non-empty,
emit one continuation frame carrying the next `writeSize - 5` buffered bytes
and increment `seq`.  For `writeSize ≤ 5` the Go loop never terminates
(`Next` consumes nothing each round); the model returns the frames written
so far in that unreachable configuration. -/
def sendFrameCont (writeSize : Nat) (rest : List Nat) (seq : Nat) : List (List Nat) :=
  if _h : rest.length = 0 then []
  else if _h5 : writeSize ≤ 5 then []
  else
    padFrame writeSize (contHeader seq) (rest.take (writeSize - 5)) ::
      sendFrameCont writeSize (rest.drop (writeSize - 5)) (seq + 1)
termination_by rest.length
decreasing_by simp [List.length_drop]; omega

/-- `sendFrame` of communication.go, returned as the list of frames written to
the device: nothing for an empty message, otherwise one init frame followed by
the continuation frames. -/
def sendFrame (writeSize : Nat) (msg : List Nat) : List (List Nat) :=
  if msg.length = 0 then []
  else
    padFrame writeSize (initHeader msg.length) (msg.take (writeSize - 7)) ::
      sendFrameCont writeSize (msg.drop (writeSize - 7)) 0

/-- The declared 16-bit big-endian payload length read from bytes 5 and 6 of an
init frame: `int(read[5])*256 + int(read[6])`. -/
def declaredLen (r : List Nat) : Nat := r.getD 5 0 * 256 + r.getD 6 0

/-- The continuation-read loop of `readFrame`: while `idx < dataLen`, perform
one more read, require at least 5 bytes, append the bytes after the 5-byte
continuation header to `data` and advance `idx` by `readLen - 5`.  An exhausted
read list models a device read error. -/
def readLoop : List (List Nat) → List Nat → Nat → Nat → Option (List Nat)
  | [], data, idx, dataLen => if idx < dataLen then none else some data
  | r :: rest, data, idx, dataLen =>
    if idx < dataLen then
      if r.length < 5 then none
      else readLoop rest (data ++ r.drop 5) (idx + (r.length - 5)) dataLen
    else some data

/-- `readFrame` of communication.go.  The successive results of `device.Read`
are modeled as a list of byte blocks (each of length at most the read report
size); an empty list models a read error.  Note that `idx` starts at
`readSize - 7` — the length of the reused read buffer — not at the number of
bytes actually read into it. -/
def readFrame (readSize : Nat) (reads : List (List Nat)) : Option (List Nat) :=
  match reads with
  | [] => none
  | r :: rest =>
    if r.length < 7 then none
    else if r.getD 0 0 ≠ 0xff ∨ r.getD 1 0 ≠ 0 ∨ r.getD 2 0 ≠ 0 ∨ r.getD 3 0 ≠ 0 then none
    else if r.getD 4 0 ≠ hwwCMD then none
    else readLoop rest (r.drop 7) (readSize - 7) (declaredLen r)

mutual
/-- JSON values as decoded by encoding/json into interface values: an object
is a map (modeled as an association list), an array a list.  Go decodes JSON
numbers into float64; the code only type-asserts and copies them, so an
integer model carries the numeric leaves of the claims. -/
inductive Json where
  | null : Json
  | bool (b : Bool) : Json
  | num (n : Int) : Json
  | str (s : String) : Json
  | arr (elems : JsonList) : Json
  | obj (fields : JsonFields) : Json
/-- A JSON array body. -/
inductive JsonList where
  | nil : JsonList
  | cons (hd : Json) (tl : JsonList) : JsonList
/-- A JSON object body: key/value entries. -/
inductive JsonFields where
  | nil : JsonFields
  | cons (key : String) (value : Json) (tl : JsonFields) : JsonFields
end

/-- Go map indexing `m[k]`: the value at the first matching key, if any. -/
def JsonFields.lookup : JsonFields → String → Option Json
  | .nil, _ => none
  | .cons k v tl, key => if k = key then some v else JsonFields.lookup tl key

/-- Discriminator for the Go type assertion `v.(map[string]interface)`. -/
def Json.isObj : Json → Bool
  | .obj _ => true
  | _ => false

mutual
/-- `hideValues` of communication.go: for each entry of the map, recurse into
map values and replace every other value by the placeholder string. -/
def hideValues : JsonFields → JsonFields
  | .nil => .nil
  | .cons k v tl => .cons k (hideValue v) (hideValues tl)
/-- Treatment of one map value by `hideValues`: a nested map is censored
recursively, any other value becomes the placeholder. -/
def hideValue : Json → Json
  | .obj fields => .obj (hideValues fields)
  | _ => .str "****"
end

mutual
/-- The object skeleton of a value: keys and object nesting with every
non-object value collapsed to null; used to state that redaction preserves
keys and nested structure. -/
def skeletonV : Json → Json
  | .obj fields => .obj (skeletonF fields)
  | _ => .null
/-- Object skeleton of an object body. -/
def skeletonF : JsonFields → JsonFields
  | .nil => .nil
  | .cons k v tl => .cons k (skeletonV v) (skeletonF tl)
end

mutual
/-- A value is fully redacted when it is the placeholder string or an object
all of whose values are fully redacted. -/
def allHiddenV : Json → Bool
  | .obj fields => allHiddenF fields
  | .str s => s == "****"
  | _ => false
/-- All values of an object body are fully redacted. -/
def allHiddenF : JsonFields → Bool
  | .nil => true
  | .cons _ v tl => allHiddenV v && allHiddenF tl
end

/-- The two error shapes produced by `maybeDBBErr`: `bitbox.NewError(message,
code)` for a well-formed device error envelope, and the Unexpected reply
error carrying the raw error object otherwise. -/
inductive DBBError where
  | deviceErr (message : String) (code : Int) : DBBError
  | unexpectedReply (reply : JsonFields) : DBBError

/-- `maybeDBBErr` of communication.go: if the error key holds a map, a string
message and a numeric code yield the typed device error, any other shape of
that map yields Unexpected reply with the raw map; when the error key is
absent or its value is not a map, no error is reported. -/
def maybeDBBErr (jsonResult : JsonFields) : Option DBBError :=
  match jsonResult.lookup "error" with
  | some (.obj errMap) =>
    match errMap.lookup "message" with
    | some (.str errMsg) =>
      match errMap.lookup "code" with
      | some (.num errCode) => some (.deviceErr errMsg errCode)
      | _ => some (.unexpectedReply errMap)
    | _ => some (.unexpectedReply errMap)
  | _ => none

/-- `logCensoredCmd` of communication.go: when debug logging is enabled the
message is unmarshalled (failure is the returned error), censored with
`hideValues`, marshalled and logged; the marshal step and the log sink cannot
influence the returned value (a marshal failure only logs).  `unmarshal`
abstracts `encoding/json.Unmarshal` into a map. -/
def logCensoredCmd (debug : Bool) (unmarshal : String → Option JsonFields)
    (msg : String) : Option String :=
  if debug then
    match unmarshal msg with
    | none => some "Failed to unmarshal message"
    | some cmd =>
      let _ := hideValues cmd
      none
  else none

/-- Results of `SendPlain`. -/
inductive SendResult where
  | ok (reply : JsonFields) : SendResult
  | commErr : SendResult
  | replyLogErr (reply : String) : SendResult
  | unmarshalErr (reply : String) : SendResult
  | deviceErr (message : String) (code : Int) : SendResult
  | unexpectedReply (raw : JsonFields) : SendResult

/-- `SendPlain` of communication.go at the JSON/logging layer.  `device`
abstracts the mutex-guarded sendFrame/readFrame round trip plus the trailing
whitespace/NUL trim, returning the trimmed reply or a channel error (the
framing itself is modeled byte-exactly above).  Note the asymmetry: the
outgoing `logCensoredCmd` error is swallowed — it only selects a fallback
debug log line — while a `logCensoredCmd` error on the received reply is
returned to the caller. -/
def sendPlain (debug : Bool) (unmarshal : String → Option JsonFields)
    (device : String → Option String) (msg : String) : SendResult :=
  let _ := logCensoredCmd debug unmarshal msg
  match device msg with
  | none => .commErr
  | some reply =>
    match logCensoredCmd debug unmarshal reply with
    | some _ => .replyLogErr reply
    | none =>
      match unmarshal reply with
      | none => .unmarshalErr reply
      | some jsonResult =>
        match maybeDBBErr jsonResult with
        | some (.deviceErr m c) => .deviceErr m c
        | some (.unexpectedReply raw) => .unexpectedReply raw
        | none => .ok jsonResult

/-- The external crypto collaborators of `SendEncrypt` (double hash of the
password, symmetric encrypt/decrypt, base64).  They live outside this
repository and are parameters of the model. -/
structure CryptoModel where
  doubleHash : String → String
  encrypt : String → String → Option String
  decrypt : String → String → Option String
  b64encode : String → String
  b64decode : String → Option String

/-- Results of `SendEncrypt`. -/
inductive EncryptResult where
  | ok (reply : JsonFields) : EncryptResult
  | invalidJsonLogErr : EncryptResult
  | encryptErr : EncryptResult
  | sendErr (e : SendResult) : EncryptResult
  | b64decodeErr : EncryptResult
  | decryptErr : EncryptResult
  | plainLogErr (reply : String) : EncryptResult
  | unmarshalErr : EncryptResult
  | deviceErr (message : String) (code : Int) : EncryptResult
  | unexpectedReply (raw : JsonFields) : EncryptResult

/-- `SendEncrypt` of communication.go.  Its first step returns a
`logCensoredCmd` failure on the outgoing message as an error (wrapped with the
text `Invalid JSON passed. Continuing anyway`) — the call does not continue.
On an ok reply carrying a ciphertext string field, the field is base64
decoded, decrypted, censored-logged (failure returned), unmarshalled, and the
device error mapping is applied to the final object. -/
def sendEncrypt (debug : Bool) (unmarshal : String → Option JsonFields)
    (device : String → Option String) (cm : CryptoModel)
    (msg password : String) : EncryptResult :=
  match logCensoredCmd debug unmarshal msg with
  | some _ => .invalidJsonLogErr
  | none =>
    let secret := cm.doubleHash password
    match cm.encrypt msg secret with
    | none => .encryptErr
    | some cipherText =>
      match sendPlain debug unmarshal device (cm.b64encode cipherText) with
      | .ok jsonResult =>
        match jsonResult.lookup "ciphertext" with
        | some (.str ct) =>
          match cm.b64decode ct with
          | none => .b64decodeErr
          | some decoded =>
            match cm.decrypt decoded secret with
            | none => .decryptErr
            | some plainText =>
              match logCensoredCmd debug unmarshal plainText with
              | some _ => .plainLogErr plainText
              | none =>
                match unmarshal plainText with
                | none => .unmarshalErr
                | some res2 =>
                  match maybeDBBErr res2 with
                  | some (.deviceErr m c) => .deviceErr m c
                  | some (.unexpectedReply raw) => .unexpectedReply raw
                  | none => .ok res2
        | _ =>
          match maybeDBBErr jsonResult with
          | some (.deviceErr m c) => .deviceErr m c
          | some (.unexpectedReply raw) => .unexpectedReply raw
          | none => .ok jsonResult
      | e => .sendErr e

/-- Bootloader request size: the bootloader expects 4098 bytes as one
message. -/
def bootSendLen : Nat := 4098

/-- Bootloader response size: the bootloader sends 256 bytes back. -/
def bootReadLen : Nat := 256

/-- The write loop of `SendBootloader`: consume the padded buffer in chunks of
the write report size; on non-windows platforms a zero report-ID byte is
prepended to each chunk before it is written.  For writeSize = 0 the Go loop
never terminates (`Next` consumes nothing); the model stops in that
unreachable configuration. -/
def bootChunks (writeSize : Nat) (padded : List Nat) (windows : Bool) : List (List Nat) :=
  if _h : padded.length = 0 then []
  else if _h0 : writeSize = 0 then []
  else
    (if windows then padded.take writeSize else 0 :: padded.take writeSize) ::
      bootChunks writeSize (padded.drop writeSize) windows
termination_by padded.length
decreasing_by simp [List.length_drop]; omega

/-- The read loop of `SendBootloader`: accumulate read blocks until at least
256 bytes have arrived; an exhausted read list models a device read error. -/
def bootRead : List (List Nat) → List Nat → Option (List Nat)
  | [], acc => if acc.length < bootReadLen then none else some acc
  | r :: rest, acc =>
    if acc.length < bootReadLen then bootRead rest (acc ++ r) else some acc

/-- `bytes.TrimRight` with cutset NUL, TAB, CR, LF. -/
def bootTrim (b : List Nat) : List Nat :=
  (b.reverse.dropWhile (fun x => x == 0 || x == 9 || x == 13 || x == 10)).reverse

/-- Outcome of `SendBootloader`: the fatal too-long panic, a device read
error, or the trimmed response. -/
inductive BootOutcome where
  | fatalTooLong : BootOutcome
  | ioErr : BootOutcome
  | ok (response : List Nat) : BootOutcome

/-- `SendBootloader` of communication.go, returning the chunks written to the
channel together with the outcome.  The length guard panics before any channel
traffic; otherwise the message is zero-padded to 4098 bytes, written in write
report sized chunks, and response blocks are read until at least 256 bytes
accumulated, then trimmed.  Channel write errors are not modeled (no claim
involves them). -/
def sendBootloader (writeSize : Nat) (windows : Bool) (msg : List Nat)
    (reads : List (List Nat)) : List (List Nat) × BootOutcome :=
  if bootSendLen < msg.length then ([], .fatalTooLong)
  else
    let padded := msg ++ List.replicate (bootSendLen - msg.length) 0
    let writes := bootChunks writeSize padded windows
    match bootRead reads [] with
    | none => (writes, .ioErr)
    | some resp => (writes, .ok (bootTrim resp))

/-- An unmarshal oracle on which every message fails to decode as a JSON
object (as any non-JSON command string does). -/
def umNone : String → Option JsonFields := fun _ => none

/-- A device oracle whose round trip always returns the reply y. -/
def devY : String → Option String := fun _ => some "y"

/-- A trivial crypto model for concrete evaluations. -/
def cmId : CryptoModel :=
  { doubleHash := fun s => s
    encrypt := fun m _ => some m
    decrypt := fun m _ => some m
    b64encode := fun s => s
    b64decode := fun s => some s }

/-- The error object of the C5 example reply. -/
def errMapX : JsonFields := .cons "message" (.str "x") (.cons "code" (.num 101) .nil)

/-- The C5 example reply carrying a full error envelope. -/
def replyErrX : JsonFields := .cons "error" (.obj errMapX) .nil

/-- A reply whose error field is present but is a string, not an object. -/
def replyErrStr : JsonFields := .cons "error" (.str "oops") .nil

/-- An unmarshal oracle decoding every string to `replyErrStr`. -/
def umErrStr : String → Option JsonFields := fun _ => some replyErrStr

/-- The command byte evaluates to 0xc1. -/
theorem hwwCMD_eq : hwwCMD = 0xc1 := by decide

theorem initHeader_length (L : Nat) : (initHeader L).length = 7 := rfl

theorem contHeader_length (s : Nat) : (contHeader s).length = 5 := rfl

theorem padFrame_length {w : Nat} {header chunk : List Nat}
    (h : header.length + chunk.length ≤ w) : (padFrame w header chunk).length = w := by
  simp [padFrame]
  omega

theorem sendFrameCont_nil (w seq : Nat) : sendFrameCont w [] seq = [] := by
  rw [sendFrameCont]
  simp

theorem sendFrameCont_cons (w : Nat) (rest : List Nat) (seq : Nat)
    (h : rest ≠ []) (h5 : ¬ w ≤ 5) :
    sendFrameCont w rest seq =
      padFrame w (contHeader seq) (rest.take (w - 5)) ::
        sendFrameCont w (rest.drop (w - 5)) (seq + 1) := by
  rw [sendFrameCont]
  rw [dif_neg (by simpa using h), dif_neg h5]

theorem padFrame_drop_cont (w s : Nat) (c : List Nat) :
    (padFrame w (contHeader s) c).drop 5 =
      c ++ List.replicate (w - (5 + c.length)) 0xee := by
  simp [padFrame, contHeader]

theorem padFrame_drop_init (w L : Nat) (c : List Nat) :
    (padFrame w (initHeader L) c).drop 7 =
      c ++ List.replicate (w - (7 + c.length)) 0xee := by
  simp [padFrame, initHeader]

theorem padFrame_init_getD (w L : Nat) (c : List Nat) (i : Nat) (hi : i < 7) :
    (padFrame w (initHeader L) c).getD i 0 = (initHeader L).getD i 0 := by
  have h1 : i < (initHeader L).length := by rw [initHeader_length]; exact hi
  have h2 : i < (initHeader L ++ c).length := by
    rw [List.length_append, initHeader_length]
    omega
  rw [padFrame, List.getD_append _ _ _ _ h2, List.getD_append _ _ _ _ h1]

/-- Decoding the continuation frames produced by `sendFrameCont` consumes all
of them and appends exactly the remaining message bytes plus trailing `0xee`
filler, provided the accumulation counter equals the accumulated length and the
declared length equals the bytes still to come. -/
theorem readLoop_sendFrameCont (w : Nat) (hw : 6 ≤ w) :
    ∀ (n : Nat) (rest data : List Nat) (seq : Nat), rest.length ≤ n → rest ≠ [] →
      ∃ p, readLoop (sendFrameCont w rest seq) data data.length (data.length + rest.length) =
        some ((data ++ rest) ++ List.replicate p 0xee) := by
  intro n
  induction n with
  | zero =>
    intro rest data seq hn hne
    cases rest with
    | nil => exact absurd rfl hne
    | cons a t => simp at hn
  | succ n ih =>
    intro rest data seq hn hne
    have h5 : ¬ w ≤ 5 := by omega
    have hrest0 : 0 < rest.length := List.length_pos.mpr hne
    rw [sendFrameCont_cons w rest seq hne h5]
    have hchunk : (rest.take (w - 5)).length = min (w - 5) rest.length :=
      List.length_take _ _
    have hFlen : (padFrame w (contHeader seq) (rest.take (w - 5))).length = w := by
      refine padFrame_length ?_
      rw [contHeader_length, hchunk]
      omega
    rw [readLoop, if_pos (by omega), hFlen, if_neg (by omega), padFrame_drop_cont]
    by_cases hle : rest.length ≤ w - 5
    · rw [List.take_of_length_le hle, List.drop_eq_nil_of_le hle, sendFrameCont_nil,
        readLoop, if_neg (by omega)]
      exact ⟨w - (5 + rest.length), by rw [List.append_assoc]⟩
    · have htk : (rest.take (w - 5)).length = w - 5 := by rw [hchunk]; omega
      have hpad : w - (5 + (rest.take (w - 5)).length) = 0 := by rw [htk]; omega
      rw [hpad, List.replicate_zero, List.append_nil]
      have hne2 : rest.drop (w - 5) ≠ [] := by
        refine List.length_pos.mp ?_
        rw [List.length_drop]
        omega
      have hbound : (rest.drop (w - 5)).length ≤ n := by
        rw [List.length_drop]
        omega
      obtain ⟨p, hp⟩ := ih (rest.drop (w - 5)) (data ++ rest.take (w - 5)) (seq + 1) hbound hne2
      refine ⟨p, ?_⟩
      have hlen2 : (data ++ rest.take (w - 5)).length = data.length + (w - 5) := by
        rw [List.length_append, htk]
      have hsum : data.length + (w - 5) + (rest.drop (w - 5)).length =
          data.length + rest.length := by
        rw [List.length_drop]
        omega
      rw [hlen2, hsum] at hp
      rw [hp, List.append_assoc data, List.take_append_drop]

/-- C1 (amended): for every payload of length 1..65535, with the read report
size equal to the write report size (at least 7), decoding the frame stream
produced by `sendFrame` with `readFrame` yields the original payload followed
by zero or more `0xee` filler bytes — the payload is recovered exactly as the
length prefix, but not byte-for-byte as the whole result. -/
theorem C1_roundtrip_amended (w : Nat) (hw : 7 ≤ w) (msg : List Nat)
    (hne : msg ≠ []) (hcap : msg.length ≤ 65535) :
    ∃ p, readFrame w (sendFrame w msg) = some (msg ++ List.replicate p 0xee) := by
  have hL : 0 < msg.length := List.length_pos.mpr hne
  rw [sendFrame, if_neg (by omega)]
  have hc0 : (msg.take (w - 7)).length = min (w - 7) msg.length := List.length_take _ _
  have hF0 : (padFrame w (initHeader msg.length) (msg.take (w - 7))).length = w := by
    refine padFrame_length ?_
    rw [initHeader_length, hc0]
    omega
  rw [readFrame, hF0, if_neg (by omega)]
  have hchk : ¬((padFrame w (initHeader msg.length) (msg.take (w - 7))).getD 0 0 ≠ 0xff ∨
      (padFrame w (initHeader msg.length) (msg.take (w - 7))).getD 1 0 ≠ 0 ∨
      (padFrame w (initHeader msg.length) (msg.take (w - 7))).getD 2 0 ≠ 0 ∨
      (padFrame w (initHeader msg.length) (msg.take (w - 7))).getD 3 0 ≠ 0) := by
    push_neg
    refine ⟨?_, ?_, ?_, ?_⟩ <;> rw [padFrame_init_getD _ _ _ _ (by omega)] <;> rfl
  have hcmd : ¬((padFrame w (initHeader msg.length) (msg.take (w - 7))).getD 4 0 ≠ hwwCMD) := by
    rw [padFrame_init_getD _ _ _ 4 (by omega)]
    exact fun h => h rfl
  have hdl : declaredLen (padFrame w (initHeader msg.length) (msg.take (w - 7))) = msg.length := by
    rw [declaredLen, padFrame_init_getD _ _ _ 5 (by omega), padFrame_init_getD _ _ _ 6 (by omega)]
    show msg.length % 65536 / 256 * 256 + msg.length % 256 = msg.length
    omega
  rw [if_neg hchk, if_neg hcmd, hdl, padFrame_drop_init]
  by_cases hle : msg.length ≤ w - 7
  · rw [List.take_of_length_le hle, List.drop_eq_nil_of_le hle, sendFrameCont_nil,
      readLoop, if_neg (by omega)]
    exact ⟨w - (7 + msg.length), rfl⟩
  · have htk : (msg.take (w - 7)).length = w - 7 := by rw [hc0]; omega
    have hpad : w - (7 + (msg.take (w - 7)).length) = 0 := by rw [htk]; omega
    rw [hpad, List.replicate_zero, List.append_nil]
    have hne2 : msg.drop (w - 7) ≠ [] := by
      refine List.length_pos.mp ?_
      rw [List.length_drop]
      omega
    obtain ⟨p, hp⟩ := readLoop_sendFrameCont w (by omega) (msg.drop (w - 7)).length
      (msg.drop (w - 7)) (msg.take (w - 7)) 0 le_rfl hne2
    have e2 : w - 7 + (msg.drop (w - 7)).length = msg.length := by
      rw [List.length_drop]
      omega
    rw [htk, e2, List.take_append_drop] at hp
    exact ⟨p, hp⟩

/-- C1 as literally stated fails: encoding the one-byte payload `[1]` with
write size 9 and decoding at read size 9 returns the payload plus `0xee`
filler, not the payload itself. -/
theorem C1_roundtrip_counterexample : readFrame 9 (sendFrame 9 [1]) ≠ some [1] := by
  have h : sendFrame 9 [1] = [padFrame 9 (initHeader 1) [1]] := by
    rw [sendFrame, if_neg (by decide),
      show List.drop (9 - 7) [1] = ([] : List Nat) from rfl, sendFrameCont_nil]
    rfl
  rw [h]
  decide

/-- Witness for C1 at a concrete payload and report size. -/
theorem C1_roundtrip_witness :
    7 ≤ 9 ∧ ([1, 2, 3] : List Nat) ≠ [] ∧ ([1, 2, 3] : List Nat).length ≤ 65535 ∧
      ∃ p, readFrame 9 (sendFrame 9 [1, 2, 3]) = some ([1, 2, 3] ++ List.replicate p 0xee) :=
  ⟨by omega, by decide, by decide, C1_roundtrip_amended 9 (by omega) [1, 2, 3] (by decide) (by decide)⟩

/-- If `readLoop` returns a payload, the final accumulation counter reached at
least `dataLen`, i.e. `dataLen + data.length ≤ idx + d.length` (the counter and
the payload grow in lock step, by `readLen - 5` per frame); and if the counter
had already reached `dataLen` at entry, nothing more was read. -/
theorem readLoop_sound (reads : List (List Nat)) :
    ∀ (data : List Nat) (idx dataLen : Nat) (d : List Nat),
      readLoop reads data idx dataLen = some d →
      dataLen + data.length ≤ idx + d.length ∧ (dataLen ≤ idx → d = data) := by
  induction reads with
  | nil =>
    intro data idx dataLen d h
    simp only [readLoop] at h
    split at h
    · exact absurd h (by simp)
    · obtain rfl : data = d := by simpa using h
      constructor
      · omega
      · intro _; rfl
  | cons r rest ih =>
    intro data idx dataLen d h
    simp only [readLoop] at h
    split at h
    · split at h
      · exact absurd h (by simp)
      · have h2 := ih (data ++ r.drop 5) (idx + (r.length - 5)) dataLen d h
        simp only [List.length_append, List.length_drop] at h2
        constructor
        · omega
        · omega
    · obtain rfl : data = d := by simpa using h
      exact ⟨by omega, fun _ => rfl⟩

/-- C2 (amended): for every frame stream accepted by `readFrame`, the
accumulation counter — which starts at `readSize - 7` after the init read (the
size of the reused read buffer, regardless of how many bytes that read
actually returned) and grows by `readLen - 5` per continuation read — has
reached at least the init frame's declared 16-bit length when reading stops
(equivalently `declared + (initRead.length - 7) ≤ (readSize - 7) +
payload.length`); and if the counter already reached the declared length after
the init read, the returned payload is exactly the init read's bytes after the
7-byte header.  Reading stops at the first point the counter is at least the
declared length, not exactly at it, and the returned payload length can differ
from the declared length. -/
theorem C2_read_accumulation_amended (rs : Nat) (r : List Nat) (rest : List (List Nat))
    (d : List Nat) (h : readFrame rs (r :: rest) = some d) :
    declaredLen r + (r.drop 7).length ≤ (rs - 7) + d.length ∧
      (declaredLen r ≤ rs - 7 → d = r.drop 7) := by
  rw [readFrame] at h
  split at h
  · exact absurd h (by simp)
  · split at h
    · exact absurd h (by simp)
    · split at h
      · exact absurd h (by simp)
      · exact readLoop_sound rest (r.drop 7) (rs - 7) (declaredLen r) d h

/-- C2 as stated fails: this stream is accepted by `readFrame` with read size
9, its init frame declares payload length 1, yet the returned payload has
length 2 (the counter starts at `readSize - 7 = 2` and the returned bytes are
everything after the 7-byte header, declared length notwithstanding). -/
theorem C2_declared_length_counterexample :
    readFrame 9 [[0xff, 0, 0, 0, 0xc1, 0, 1, 7, 8]] = some [7, 8] ∧
      declaredLen [0xff, 0, 0, 0, 0xc1, 0, 1, 7, 8] ≠ ([7, 8] : List Nat).length := by
  decide

/-- Witness for C2 at a concrete accepted stream. -/
theorem C2_read_accumulation_witness :
    readFrame 9 [[0xff, 0, 0, 0, 0xc1, 0, 2, 7, 8]] = some [7, 8] ∧
      declaredLen [0xff, 0, 0, 0, 0xc1, 0, 2, 7, 8] +
          (([0xff, 0, 0, 0, 0xc1, 0, 2, 7, 8] : List Nat).drop 7).length ≤
        (9 - 7) + ([7, 8] : List Nat).length ∧
      (declaredLen [0xff, 0, 0, 0, 0xc1, 0, 2, 7, 8] ≤ 9 - 7 →
        ([7, 8] : List Nat) = ([0xff, 0, 0, 0, 0xc1, 0, 2, 7, 8] : List Nat).drop 7) := by
  have h : readFrame 9 [[0xff, 0, 0, 0, 0xc1, 0, 2, 7, 8]] = some [7, 8] := by decide
  have h2 := C2_read_accumulation_amended 9 [0xff, 0, 0, 0, 0xc1, 0, 2, 7, 8] [] [7, 8] h
  exact ⟨h, h2.1, h2.2⟩

mutual
/-- Redaction preserves the object skeleton of an object body. -/
theorem skeletonF_hideValues (fs : JsonFields) : skeletonF (hideValues fs) = skeletonF fs := by
  cases fs with
  | nil => rfl
  | cons k v tl => simp [hideValues, skeletonF, skeletonV_hideValue v, skeletonF_hideValues tl]
/-- Redaction preserves the object skeleton of a single value. -/
theorem skeletonV_hideValue (v : Json) : skeletonV (hideValue v) = skeletonV v := by
  cases v with
  | obj fields => simp [hideValue, skeletonV, skeletonF_hideValues fields]
  | null => rfl
  | bool b => rfl
  | num n => rfl
  | str s => rfl
  | arr elems => rfl
end

mutual
/-- After redaction every value of an object body is fully redacted. -/
theorem allHiddenF_hideValues (fs : JsonFields) : allHiddenF (hideValues fs) = true := by
  cases fs with
  | nil => rfl
  | cons k v tl => simp [hideValues, allHiddenF, allHiddenV_hideValue v, allHiddenF_hideValues tl]
/-- After redaction a single value is fully redacted. -/
theorem allHiddenV_hideValue (v : Json) : allHiddenV (hideValue v) = true := by
  cases v with
  | obj fields => simp [hideValue, allHiddenV, allHiddenF_hideValues fields]
  | null => rfl
  | bool b => rfl
  | num n => rfl
  | str s => rfl
  | arr elems => rfl
end

/-- C4: `hideValues` replaces every leaf value with the placeholder
recursively while preserving all keys and the nested object structure, and on
the example object with fields a.b = 1 and c = secret it yields a.b = the
placeholder and c = the placeholder. -/
theorem C4_hideValues_redaction :
    (∀ fs : JsonFields,
        skeletonF (hideValues fs) = skeletonF fs ∧ allHiddenF (hideValues fs) = true) ∧
      hideValues (.cons "a" (.obj (.cons "b" (.num 1) .nil)) (.cons "c" (.str "secret") .nil)) =
        .cons "a" (.obj (.cons "b" (.str "****") .nil)) (.cons "c" (.str "****") .nil) :=
  ⟨fun fs => ⟨skeletonF_hideValues fs, allHiddenF_hideValues fs⟩, rfl⟩

/-- C5: for a decoded reply whose error field holds an object, a string
message together with a numeric code yields the typed device error carrying
exactly that code and message — and SendPlain returns it instead of the data —
while a missing message or code field yields the Unexpected reply error
carrying the raw error object. -/
theorem C5_error_mapping (res errMap : JsonFields)
    (h : res.lookup "error" = some (.obj errMap)) :
    (∀ m c, errMap.lookup "message" = some (.str m) →
      errMap.lookup "code" = some (.num c) →
      maybeDBBErr res = some (.deviceErr m c) ∧
        ∀ debug unmarshal device msg reply,
          device msg = some reply → unmarshal reply = some res →
          sendPlain debug unmarshal device msg = .deviceErr m c) ∧
      ((errMap.lookup "message" = none ∨ errMap.lookup "code" = none) →
        maybeDBBErr res = some (.unexpectedReply errMap)) := by
  constructor
  · intro m c hm hc
    have hdbb : maybeDBBErr res = some (.deviceErr m c) := by
      simp only [maybeDBBErr, h, hm, hc]
    refine ⟨hdbb, ?_⟩
    intro debug unmarshal device msg reply hdev hum
    simp only [sendPlain, logCensoredCmd, hdev, hum, hdbb, ite_self]
  · intro hmc
    cases hml : errMap.lookup "message" with
    | none => simp only [maybeDBBErr, h, hml]
    | some v =>
      have hcode : errMap.lookup "code" = none := by
        rcases hmc with hm | hc
        · rw [hm] at hml
          exact absurd hml (by simp)
        · exact hc
      cases v with
      | str s => simp only [maybeDBBErr, h, hml, hcode]
      | null => simp only [maybeDBBErr, h, hml]
      | bool b => simp only [maybeDBBErr, h, hml]
      | num n => simp only [maybeDBBErr, h, hml]
      | arr l => simp only [maybeDBBErr, h, hml]
      | obj o => simp only [maybeDBBErr, h, hml]

/-- Witness for C5 at the two example replies of the claim. -/
theorem C5_error_mapping_witness :
    JsonFields.lookup replyErrX "error" = some (.obj errMapX) ∧
      maybeDBBErr replyErrX = some (.deviceErr "x" 101) ∧
      maybeDBBErr (.cons "error" (.obj (.cons "message" (.str "x") .nil)) .nil) =
        some (.unexpectedReply (.cons "message" (.str "x") .nil)) := by
  refine ⟨rfl, ?_, ?_⟩
  · exact ((C5_error_mapping replyErrX errMapX rfl).1 "x" 101 rfl rfl).1
  · exact (C5_error_mapping (.cons "error" (.obj (.cons "message" (.str "x") .nil)) .nil)
      (.cons "message" (.str "x") .nil) rfl).2 (Or.inr rfl)

/-- C10: when the error field of a decoded reply is present but its value is
not an object, `maybeDBBErr` reports no error, so SendPlain returns the reply
unchanged as ordinary data rather than as any error variant. -/
theorem C10_nonobject_error_passthrough (res : JsonFields) (v : Json)
    (hv : res.lookup "error" = some v) (hno : v.isObj = false) :
    maybeDBBErr res = none ∧
      ∀ debug unmarshal device msg reply,
        device msg = some reply → unmarshal reply = some res →
        sendPlain debug unmarshal device msg = .ok res := by
  have hdbb : maybeDBBErr res = none := by
    cases v with
    | obj o => simp [Json.isObj] at hno
    | null => simp only [maybeDBBErr, hv]
    | bool b => simp only [maybeDBBErr, hv]
    | num n => simp only [maybeDBBErr, hv]
    | str s => simp only [maybeDBBErr, hv]
    | arr l => simp only [maybeDBBErr, hv]
  refine ⟨hdbb, ?_⟩
  intro debug unmarshal device msg reply hdev hum
  simp only [sendPlain, logCensoredCmd, hdev, hum, hdbb, ite_self]

/-- Witness for C10 at a reply whose error field is the string oops. -/
theorem C10_nonobject_error_passthrough_witness :
    maybeDBBErr replyErrStr = none ∧
      sendPlain true umErrStr devY "m" = .ok replyErrStr := by
  have h := C10_nonobject_error_passthrough replyErrStr (.str "oops") rfl rfl
  exact ⟨h.1, h.2 true umErrStr devY "m" "y" rfl rfl⟩

/-- C3 fails on the code (code bug): with debug logging enabled, a failure of
the censored-logging step makes SendEncrypt return the Invalid JSON error
without sending anything — even though the error text itself says the call
would continue — and makes SendPlain return an error when the received reply
fails censored logging; with debug logging disabled the same inputs proceed to
the transport.  The result of the operation therefore depends on logging
success, and a failing log line is not merely skipped. -/
theorem C3_logging_failure_returns_error :
    sendEncrypt true umNone devY cmId "x" "pw" = .invalidJsonLogErr ∧
      sendPlain true umNone devY "x" = .replyLogErr "y" ∧
      sendEncrypt false umNone devY cmId "x" "pw" = .sendErr (.unmarshalErr "y") ∧
      sendPlain false umNone devY "x" = .unmarshalErr "y" :=
  ⟨rfl, rfl, rfl, rfl⟩

/-- C6: a bootloader payload longer than 4098 bytes hits the fatal panic
guard before any channel write or read is performed — no chunks are written
and the outcome is the fatal one whatever reads are pending — while a payload
of at most 4098 bytes never takes the guard branch. -/
theorem C6_bootloader_guard (ws : Nat) (win : Bool) (msg : List Nat)
    (reads : List (List Nat)) :
    (4098 < msg.length → sendBootloader ws win msg reads = ([], .fatalTooLong)) ∧
      (msg.length ≤ 4098 → (sendBootloader ws win msg reads).2 ≠ .fatalTooLong) := by
  constructor
  · intro h
    rw [sendBootloader, if_pos (by rw [bootSendLen]; exact h)]
  · intro h
    have hcond : ¬ bootSendLen < msg.length := by
      rw [bootSendLen]
      omega
    rw [sendBootloader, if_neg hcond]
    cases hb : bootRead reads [] with
    | none => simp [hb]
    | some resp => simp [hb]

/-- Witness for C6: a 4099-byte payload is rejected with no I/O and the empty
payload never reaches the guard. -/
theorem C6_bootloader_guard_witness :
    sendBootloader 64 false (List.replicate 4099 0) [] = ([], .fatalTooLong) ∧
      (sendBootloader 64 false [] []).2 ≠ .fatalTooLong := by
  constructor
  · exact (C6_bootloader_guard 64 false (List.replicate 4099 0) []).1
      (by rw [List.length_replicate]; omega)
  · exact (C6_bootloader_guard 64 false [] []).2 (by simp)

theorem padFrame_cont_getD4 (w s : Nat) (c : List Nat) :
    (padFrame w (contHeader s) c).getD 4 0 = s % 256 := by
  have h1 : (4 : Nat) < (contHeader s).length := by rw [contHeader_length]; omega
  have h2 : (4 : Nat) < (contHeader s ++ c).length := by
    rw [List.length_append, contHeader_length]
    omega
  rw [padFrame, List.getD_append _ _ _ _ h2, List.getD_append _ _ _ _ h1]
  rfl

/-- Byte 4 of the continuation frame at position k of the continuation loop
started at counter seq is the 8-bit truncation of seq + k. -/
theorem sendFrameCont_seqByte (w : Nat) (hw : 6 ≤ w) :
    ∀ (n : Nat) (rest : List Nat) (seq k : Nat) (f : List Nat), rest.length ≤ n →
      (sendFrameCont w rest seq)[k]? = some f → f.getD 4 0 = (seq + k) % 256 := by
  intro n
  induction n with
  | zero =>
    intro rest seq k f hn hf
    cases rest with
    | nil =>
      rw [sendFrameCont_nil] at hf
      exact absurd hf (by simp)
    | cons a t => simp at hn
  | succ n ih =>
    intro rest seq k f hn hf
    by_cases hne : rest = []
    · subst hne
      rw [sendFrameCont_nil] at hf
      exact absurd hf (by simp)
    · rw [sendFrameCont_cons w rest seq hne (by omega)] at hf
      cases k with
      | zero =>
        obtain rfl : padFrame w (contHeader seq) (rest.take (w - 5)) = f := by
          simpa using hf
        rw [padFrame_cont_getD4, Nat.add_zero]
      | succ k =>
        have hf2 : (sendFrameCont w (rest.drop (w - 5)) (seq + 1))[k]? = some f := by
          simpa using hf
        have hr := ih (rest.drop (w - 5)) (seq + 1) k f
          (by rw [List.length_drop]; omega) hf2
        rw [hr, Nat.add_assoc, Nat.add_comm 1 k]

/-- C7: for every non-empty payload, the k-th continuation frame (1-indexed)
written by sendFrame carries sequence byte (k-1) mod 256 in header position 4:
numbering starts at 0, increments by one per continuation frame, and wraps by
8-bit truncation. -/
theorem C7_sequence_bytes (w : Nat) (hw : 7 ≤ w) (msg : List Nat) (hne : msg ≠ [])
    (k : Nat) (_hk : 1 ≤ k) (f : List Nat)
    (hf : ((sendFrame w msg).drop 1)[k - 1]? = some f) :
    f.getD 4 0 = (k - 1) % 256 := by
  rw [sendFrame, if_neg (fun h0 => hne (List.eq_nil_of_length_eq_zero h0))] at hf
  rw [List.drop_succ_cons, List.drop_zero] at hf
  have := sendFrameCont_seqByte w (by omega) (msg.drop (w - 7)).length
    (msg.drop (w - 7)) 0 (k - 1) f le_rfl hf
  rw [this, Nat.zero_add]

/-- Witness for C7 at a concrete payload: the first continuation frame of a
two-byte payload at write size 7 carries sequence byte 0. -/
theorem C7_sequence_bytes_witness :
    ((sendFrame 7 [1, 2]).drop 1)[1 - 1]? = some [255, 0, 0, 0, 0, 1, 2] ∧
      ([255, 0, 0, 0, 0, 1, 2] : List Nat).getD 4 0 = (1 - 1) % 256 := by
  have e1 : sendFrameCont 7 [1, 2] 0 = [[255, 0, 0, 0, 0, 1, 2]] := by
    rw [sendFrameCont_cons 7 [1, 2] 0 (by decide) (by omega),
      show List.drop (7 - 5) [1, 2] = ([] : List Nat) from rfl, sendFrameCont_nil]
    rfl
  have e2 : ((sendFrame 7 [1, 2]).drop 1)[1 - 1]? = some [255, 0, 0, 0, 0, 1, 2] := by
    rw [sendFrame, if_neg (by decide),
      show List.drop (7 - 7) [1, 2] = ([1, 2] : List Nat) from rfl, e1]
    rfl
  exact ⟨e2, C7_sequence_bytes 7 (by omega) [1, 2] (by decide) 1 le_rfl _ e2⟩

/-- Every frame produced by the continuation loop is a continuation header
plus a chunk of at most w - 5 bytes, padded by padFrame. -/
theorem sendFrameCont_mem (w : Nat) (hw : 6 ≤ w) :
    ∀ (n : Nat) (rest : List Nat) (seq : Nat) (f : List Nat), rest.length ≤ n →
      f ∈ sendFrameCont w rest seq →
      ∃ s c, c.length ≤ w - 5 ∧ f = padFrame w (contHeader s) c := by
  intro n
  induction n with
  | zero =>
    intro rest seq f hn hf
    cases rest with
    | nil =>
      rw [sendFrameCont_nil] at hf
      exact absurd hf (by simp)
    | cons a t => simp at hn
  | succ n ih =>
    intro rest seq f hn hf
    by_cases hne : rest = []
    · subst hne
      rw [sendFrameCont_nil] at hf
      exact absurd hf (by simp)
    · rw [sendFrameCont_cons w rest seq hne (by omega)] at hf
      rcases List.mem_cons.mp hf with hf1 | hf2
      · refine ⟨seq, rest.take (w - 5), ?_, hf1⟩
        rw [List.length_take]
        omega
      · exact ih (rest.drop (w - 5)) (seq + 1) f (by rw [List.length_drop]; omega) hf2

/-- C8: every frame written by sendFrame for a non-empty payload has length
exactly the write report size, and is its header (init or continuation)
followed by a payload chunk that fits it and by 0xee filler for every byte
beyond header and chunk. -/
theorem C8_frame_size_padding (w : Nat) (hw : 7 ≤ w) (msg : List Nat) (hne : msg ≠ [])
    (f : List Nat) (hf : f ∈ sendFrame w msg) :
    f.length = w ∧
      ((∃ c : List Nat, c.length ≤ w - 7 ∧
          f = initHeader msg.length ++ c ++ List.replicate (w - (7 + c.length)) 0xee) ∨
        (∃ s : Nat, ∃ c : List Nat, c.length ≤ w - 5 ∧
          f = contHeader s ++ c ++ List.replicate (w - (5 + c.length)) 0xee)) := by
  rw [sendFrame, if_neg (fun h0 => hne (List.eq_nil_of_length_eq_zero h0))] at hf
  rcases List.mem_cons.mp hf with hf1 | hf2
  · have hc : (msg.take (w - 7)).length ≤ w - 7 := by
      rw [List.length_take]
      omega
    constructor
    · rw [hf1]
      exact padFrame_length (by rw [initHeader_length]; omega)
    · exact Or.inl ⟨msg.take (w - 7), hc, by rw [hf1, padFrame, initHeader_length]⟩
  · obtain ⟨s, c, hcl, rfl⟩ := sendFrameCont_mem w (by omega) (msg.drop (w - 7)).length
      (msg.drop (w - 7)) 0 f le_rfl hf2
    constructor
    · exact padFrame_length (by rw [contHeader_length]; omega)
    · exact Or.inr ⟨s, c, hcl, by rw [padFrame, contHeader_length]⟩

/-- Witness for C8 at the single frame of a one-byte payload with write size
9. -/
theorem C8_frame_size_padding_witness :
    (padFrame 9 (initHeader 1) [1] ∈ sendFrame 9 [1]) ∧
      (padFrame 9 (initHeader 1) [1]).length = 9 := by
  have h : sendFrame 9 [1] = [padFrame 9 (initHeader 1) [1]] := by
    rw [sendFrame, if_neg (by decide),
      show List.drop (9 - 7) [1] = ([] : List Nat) from rfl, sendFrameCont_nil]
    rfl
  have hmem : padFrame 9 (initHeader 1) [1] ∈ sendFrame 9 [1] := by
    rw [h]
    exact List.mem_singleton.mpr rfl
  exact ⟨hmem, (C8_frame_size_padding 9 (by omega) [1] (by decide) _ hmem).1⟩
